import Mathlib

/-! Verification of the CAGED-finder fretboard core (`src/cagedfinder/guitar.py`):
the `Note` and `String` model, the mingus pitch-class interface the core
consumes, the `Form` algebra and the `calculate_form` synthesis algorithm. -/

namespace Caged

/-- Errors the embedded Python code can raise: `StopIteration` from an
exhausted `next(...)`, `IndexError` from sequence indexing, `ValueError` from
`min` on an empty sequence or from an invalid tuning, `AttributeError` from a
call on an object lacking the attribute, `NoteFormatError` from mingus on an
invalid note name.  `formNotFound` is modelled from the spec's error taxonomy
(section 7); the source defines no such error and never raises it, which is
exactly what the theorem for claim C3 records. -/
inductive PyErr where
  | stopIteration
  | indexError
  | valueError
  | attributeError
  | noteFormatError
  | formNotFound
  deriving DecidableEq, Repr

instance {ε α : Type} [DecidableEq ε] [DecidableEq α] : DecidableEq (Except ε α) := fun a b =>
  match a, b with
  | .ok x, .ok y =>
    if h : x = y then .isTrue (by rw [h]) else .isFalse (fun hh => h (by injection hh))
  | .error x, .error y =>
    if h : x = y then .isTrue (by rw [h]) else .isFalse (fun hh => h (by injection hh))
  | .ok _, .error _ => .isFalse (fun hh => Except.noConfusion hh)
  | .error _, .ok _ => .isFalse (fun hh => Except.noConfusion hh)

/-- Decimal digits worker, structurally recursive on a fuel bound so that the
kernel can evaluate it; `pyDigitsAux_congr` shows any sufficient fuel gives
the same digits. -/
def pyDigitsAux : Nat → Nat → List Char
  | 0, _ => []
  | fuel + 1, n =>
    if n < 10 then [Char.ofNat (48 + n)]
    else pyDigitsAux fuel (n / 10) ++ [Char.ofNat (48 + n % 10)]

/-- Decimal digit characters of a natural number, modelling Python `str(n)`
for the nonnegative integers used as string and fret indices. -/
def pyDigits (n : Nat) : List Char := pyDigitsAux (n + 1) n

theorem pyDigitsAux_congr : ∀ (f1 f2 n : Nat), n < f1 → n < f2 → pyDigitsAux f1 n = pyDigitsAux f2 n := by
  intro f1
  induction f1 with
  | zero => intro f2 n h1 _; omega
  | succ f1 ih =>
    intro f2 n h1 h2
    match f2 with
    | 0 => omega
    | f2 + 1 =>
      simp only [pyDigitsAux]
      by_cases h : n < 10
      · simp [h]
      · have hd : n / 10 < n := Nat.div_lt_self (by omega) (by omega)
        simp only [h, if_false]
        rw [ih f2 (n / 10) (by omega) (by omega)]

/-- Recurrence satisfied by `pyDigits`: last decimal digit appended to the
digits of the quotient. -/
theorem pyDigits_eq (n : Nat) :
    pyDigits n = if n < 10 then [Char.ofNat (48 + n)]
      else pyDigits (n / 10) ++ [Char.ofNat (48 + n % 10)] := by
  show pyDigitsAux (n + 1) n = _
  simp only [pyDigitsAux]
  by_cases h : n < 10
  · simp [h]
  · have hd : n / 10 < n := Nat.div_lt_self (by omega) (by omega)
    simp only [h, if_false]
    rw [pyDigitsAux_congr n (n / 10 + 1) (n / 10) (by omega) (by omega)]
    rfl

/-- A fretboard position with its resolved pitch-class name and the optional
performance effect the source passes through from the tab parser. -/
structure Note where
  string : Nat
  fret : Nat
  name : String
  effect : Option String := none
  deriving DecidableEq, Repr

/-- Key string `str(self.string) + str(self.fret) + self.name` whose Python
hash `Note.__hash__` returns; `Note.__eq__` compares these hashes, so equal
key strings mean equal notes. -/
def Note.pyKey (n : Note) : String :=
  ⟨pyDigits n.string ++ pyDigits n.fret ++ n.name.data⟩

/-- Model of `Note.__eq__`: equality of the hash key strings. -/
def Note.eqb (a b : Note) : Bool := decide (a.pyKey = b.pyKey)

/-- Model of `Note.__lt__`: position order, lower-pitched (higher-numbered)
string first, then ascending fret. -/
def Note.ltb (a b : Note) : Bool :=
  decide (b.string < a.string ∨ (a.string = b.string ∧ a.fret < b.fret))

/-- Model of `Note.get_octave`: the other fret twelve away on the same
string, with no range check and the effect dropped. -/
def Note.get_octave (n : Note) : Note :=
  ⟨n.string, if 12 ≤ n.fret then n.fret - 12 else n.fret + 12, n.name, none⟩

/-- Model of mingus `notes.int_to_note` on the in-range arguments the core
passes (every call site reduces the argument mod 12 first): the sharp
spelling of each of the twelve pitch classes. -/
def intToNote (n : Nat) : String :=
  match n % 12 with
  | 0 => "C"
  | 1 => "C#"
  | 2 => "D"
  | 3 => "D#"
  | 4 => "E"
  | 5 => "F"
  | 6 => "F#"
  | 7 => "G"
  | 8 => "G#"
  | 9 => "A"
  | 10 => "A#"
  | _ => "B"

/-- Base pitch-class value of a note letter (the mingus note dictionary). -/
def noteBase (c : Char) : Option Nat :=
  if c = 'C' then some 0 else if c = 'D' then some 2 else if c = 'E' then some 4
  else if c = 'F' then some 5 else if c = 'G' then some 7 else if c = 'A' then some 9
  else if c = 'B' then some 11 else none

/-- Model of mingus `notes.note_to_int` (and, through `Option.isSome`, of
`notes.is_valid_note`): a note letter plus `#` and `b` accidentals, reduced
mod 12; `none` models the `NoteFormatError` raised on an invalid name. -/
def noteToInt (s : String) : Option Nat :=
  match s.data with
  | [] => none
  | c :: rest =>
    match noteBase c with
    | none => none
    | some b =>
      if rest.all fun a => a == '#' || a == 'b' then
        some ((((b : Int) + (rest.count '#' : Int) - (rest.count 'b' : Int)) % 12).toNat)
      else none

/-- Model of mingus `notes.is_enharmonic`: both names resolved to pitch-class
integers and compared; the first argument is resolved first, so its format
error wins, as in Python. -/
def isEnharmonic (a b : String) : Except PyErr Bool :=
  match noteToInt a with
  | none => .error .noteFormatError
  | some x =>
    match noteToInt b with
    | none => .error .noteFormatError
    | some y => .ok (decide (x = y))

/-- The `String` class: a string index, its open tuning name and the fretted
notes computed once at construction. -/
structure GString where
  index : Nat
  tuning : String
  notes : List Note
  deriving DecidableEq, Repr

/-- Fret count `String.FRETS` (frets 0 through 22). -/
def FRETS : Nat := 23

/-- Model of `String.__init__`: rejects an invalid tuning name (`ValueError`),
otherwise builds the per-fret note table with `get_note_name`, which computes
`int_to_note((note_to_int(tuning) + fret) % 12)`. -/
def mkString (index : Nat) (tuning : String) : Except PyErr GString :=
  match noteToInt tuning with
  | none => .error .valueError
  | some v =>
    .ok ⟨index, tuning,
      (List.range FRETS).map fun fret => ⟨index, fret, intToNote ((v + fret) % 12), none⟩⟩

/-- Short-circuiting `any(n1.is_enharmonic(n2) for n2 in note_list)`,
propagating the first `NoteFormatError` like the Python generator. -/
def anyEnharmonic (name : String) : List String → Except PyErr Bool
  | [] => .ok false
  | x :: xs => do
    let b ← isEnharmonic name x
    if b then .ok true else anyEnharmonic name xs

/-- Filter of a note table by enharmonic membership in a name list, in table
(ascending fret) order. -/
def getNotesGo (note_list : List String) : List Note → Except PyErr (List Note)
  | [] => .ok []
  | n :: ns => do
    let b ← anyEnharmonic n.name note_list
    let rest ← getNotesGo note_list ns
    .ok (if b then n :: rest else rest)

/-- Model of `String.get_notes`. -/
def GString.get_notes (s : GString) (note_list : List String) : Except PyErr (List Note) :=
  getNotesGo note_list s.notes

/-- Filter of a note table by enharmonic equivalence with one name. -/
def getByNameGo (item : String) : List Note → Except PyErr (List Note)
  | [] => .ok []
  | n :: ns => do
    let b ← isEnharmonic n.name item
    let rest ← getByNameGo item ns
    .ok (if b then n :: rest else rest)

/-- Model of the non-integer branch of `String.__getitem__`: every note on
the string enharmonic to the given name. -/
def GString.getitem_name (s : GString) (item : String) : Except PyErr (List Note) :=
  getByNameGo item s.notes

/-- Model of the integer branch of `String.__getitem__` with CPython tuple
indexing semantics for `self.notes[item]`: negative indices count from the
end, only indices outside `[-len, len)` raise `IndexError`, and the `.name`
of the indexed note is returned. -/
def GString.getitem_int (s : GString) (item : Int) : Except PyErr String :=
  let n : Int := (s.notes.length : Int)
  let idx : Int := if item < 0 then item + n else item
  if 0 ≤ idx ∧ idx < n then
    match s.notes.get? idx.toNat with
    | some nt => .ok nt.name
    | none => .error .indexError
  else .error .indexError

/-- One of the five CAGED form letters keying the `root_forms` table. -/
inductive FormLetter where
  | C | A | G | E | D
  deriving DecidableEq, Repr

/-- The form letter as the string passed to the `Form` constructor. -/
def FormLetter.str : FormLetter → String
  | .C => "C" | .A => "A" | .G => "G" | .E => "E" | .D => "D"

/-- The note table `String(i, t)` constructs when the open pitch value of `t`
is `v`; `mkString_strE1` and friends check these against `mkString`. -/
def cfString (i v : Nat) (t : String) : GString :=
  ⟨i, t, (List.range FRETS).map fun fret => ⟨i, fret, intToNote ((v + fret) % 12), none⟩⟩

/-- Strings of the fretboard `calculate_form` builds from `'EBGDAE'`:
string 1 is the high E, string 6 the low E. -/
def strE1 : GString := cfString 1 4 "E"

/-- The B string (index 2). -/
def strB2 : GString := cfString 2 11 "B"

/-- The G string (index 3). -/
def strG3 : GString := cfString 3 7 "G"

/-- The D string (index 4). -/
def strD4 : GString := cfString 4 2 "D"

/-- The A string (index 5). -/
def strA5 : GString := cfString 5 9 "A"

/-- The low E string (index 6). -/
def strE6 : GString := cfString 6 4 "E"

/-- The tuple `strings` built at the top of `calculate_form`. -/
def cfStrings : List GString := [strE1, strB2, strG3, strD4, strA5, strE6]

/-- The `root_forms` anchor-string table of `calculate_form`. -/
def rootForms : FormLetter → List GString
  | .C => [strB2, strA5]
  | .A => [strA5, strG3]
  | .G => [strG3, strE1, strE6]
  | .E => [strE1, strE6, strD4]
  | .D => [strD4, strB2]

/-- A mingus scale class as the core consumes it: a `__name__` and the
`scale(key).ascending()` pitch-class sequence; the error models the
`NoteFormatError` the constructor raises on a bad key. -/
structure Scale where
  name : String
  ascending : String → Except PyErr (List String)

/-- Modelled from the spec: the external scale provider (mingus
`scales.Locrian`, absent from `src/`) returns the ascending pitch classes of
the scale, root to root inclusive (section 6).  Spellings are normalized to
the fretboard's sharp names; the core compares scale notes only up to
enharmonic equivalence, so the spelling is immaterial to its behaviour. -/
def locrianAscending (key : String) : Except PyErr (List String) :=
  match noteToInt key with
  | none => .error .noteFormatError
  | some v => .ok (([0, 1, 3, 5, 6, 8, 10].map fun i => intToNote ((v + i) % 12)) ++ [intToNote (v % 12)])

/-- The Locrian mode as a `Scale` value. -/
def Locrian : Scale := ⟨"Locrian", locrianAscending⟩

/-- Model of `next(note for note in l if note.fret >= b)`: the first such
element, or `StopIteration`. -/
def nextFretGE (l : List Note) (b : Nat) : Except PyErr Note :=
  match l.find? fun n => b ≤ n.fret with
  | some n => .ok n
  | none => .error .stopIteration

/-- Root lookup on the non-primary anchor strings, each at or above the
primary root's fret (line 217). -/
def computeRootsRest (key : String) (floor : Nat) : List GString → Except PyErr (List Note)
  | [] => .ok []
  | s :: ss => do
    let cand ← s.getitem_name key
    let r ← nextFretGE cand floor
    let rest ← computeRootsRest key floor ss
    .ok (r :: rest)

/-- The mandatory root positions of lines 216-218: the first key-matching
note at or above `form_start` on the primary anchor string, then one per
remaining anchor string at or above that first root's fret. -/
def computeRoots (key : String) (form : FormLetter) (form_start : Nat) : Except PyErr (List Note) :=
  match rootForms form with
  | [] => .error .indexError
  | p :: rest => do
    let cand ← p.getitem_name key
    let r0 ← nextFretGE cand form_start
    let others ← computeRootsRest key r0.fret rest
    .ok (r0 :: others)

/-- The sort key `abs(start - note.fret)` of line 243. -/
def fretDist (start : Nat) (n : Note) : Nat := ((start : Int) - (n.fret : Int)).natAbs

/-- Model of `min(candidates, key=...)`: the first minimum in sequence order,
`ValueError` on an empty sequence, as in Python. -/
def minByDist (start : Nat) : List Note → Except PyErr Note
  | [] => .error .valueError
  | x :: xs => .ok (xs.foldl (fun best n => if fretDist start n < fretDist start best then n else best) x)

/-- Inner loop over one interior string's scale candidates (lines 238-250):
skip candidates at or below `start`; for the first one beyond, the closest
same-pitch note on the next higher string is computed, and either that
bridging note is taken (stretch beyond three frets, new `start`, break) or
the candidate itself is appended and the scan continues. -/
def walkNotes (i : Nat) : List Note → List Note → Nat → Except PyErr (List Note × Nat)
  | [], nl, start => .ok (nl, start)
  | note :: rest, nl, start =>
    if note.fret ≤ start then walkNotes i rest nl start
    else do
      let hcand ← (cfStrings.getD (i - 2) strE1).get_notes [note.name]
      let hsn ← minByDist start hcand
      if start + 3 < note.fret then .ok (nl ++ [hsn], hsn.fret)
      else walkNotes i rest (nl ++ [note]) start

/-- The destructive `while notes_list[0].fret < start: notes_list.pop(0)` of
lines 228-229; reading `notes_list[0]` from an empty list is an `IndexError`. -/
def popFrontWhile : List Note → Nat → Except PyErr (List Note)
  | [], _ => .error .indexError
  | n :: rest, start => if n.fret < start then popFrontWhile rest start else .ok (n :: rest)

/-- Model of `s.notes[f]` on a note table with nonnegative index. -/
def getNoteAt (s : GString) (f : Nat) : Except PyErr Note :=
  match s.notes.get? f with
  | some n => .ok n
  | none => .error .indexError

/-- Appends `strings[0].notes[note.fret]` for each remaining low-E note
(lines 235-236). -/
def mirrorGo : List Note → Except PyErr (List Note)
  | [] => .ok []
  | n :: ns => do
    let m ← getNoteAt strE1 n.fret
    let rest ← mirrorGo ns
    .ok (m :: rest)

/-- The `i == 1` terminal branch of the walk (lines 226-237): trim low-E notes
below `start`, pop the last collected note, reinsert its fret on the low E in
front when the front fret disagrees, then mirror the low-E notes to the high E. -/
def finishHighE (nl : List Note) (start : Nat) : Except PyErr (List Note) := do
  let nl1 ← popFrontWhile nl start
  match nl1.getLast? with
  | none => .error .indexError
  | some removed =>
    match nl1.dropLast with
    | [] => .error .indexError
    | first :: tail => do
      let nl2 ←
        if first.fret ≠ removed.fret then do
          let ins ← getNoteAt strE6 removed.fret
          pure (ins :: first :: tail)
        else pure (first :: tail)
      let adds ← mirrorGo (nl2.filter fun n => n.string == 6)
      .ok (nl2 ++ adds)

/-- The walk over `reversed(strings)` (lines 224-250). -/
def walkStrings (scale_notes : List String) : List GString → List Note → Nat → Except PyErr (List Note)
  | [], nl, _ => .ok nl
  | s :: ss, nl, start =>
    if s.index = 1 then finishHighE nl start
    else do
      let cands ← s.get_notes scale_notes
      let st ← walkNotes s.index cands nl start
      walkStrings scale_notes ss st.1 st.2

/-- One attempt of `calculate_form` at a fixed `form_start` (lines 215-250):
the roots, the scale notes, the low-E seed note and the full walk, each error
propagating in Python evaluation order.  Returns the roots paired with the
collected note list. -/
def attempt (key : String) (scale : Scale) (form : FormLetter) (form_start : Nat) :
    Except PyErr (List Note × List Note) := do
  let roots ← computeRoots key form form_start
  let scale_notes ← scale.ascending key
  let candidates ← strE6.get_notes scale_notes
  let first ← nextFretGE candidates form_start
  let nl ← walkStrings scale_notes cfStrings.reverse [first] first.fret
  .ok (roots, nl)

/-- A `Form`: the note tuple inherited from `Lick` plus key, scale-name and
form-letter labels. -/
structure Form where
  notes : List Note
  key : Option String := none
  scale : Option String := none
  forms : String := ""
  deriving DecidableEq, Repr

/-- Model of `Form.__init__`.  `Lick.__init__` stores `notes` as a tuple, so
when `transpose` is set the call `self.notes.extend(...)` on line 171 raises
`AttributeError` before any octave copy is produced. -/
def Form.init (notes : List Note) (key : Option String) (scale : Option String)
    (forms : String) (transpose : Bool) : Except PyErr Form :=
  if transpose then .error .attributeError
  else .ok ⟨notes, key, scale, forms⟩

/-- Python truthiness of the optional `scale` attribute: `None` and the empty
string are falsy. -/
def truthy : Option String → Bool
  | none => false
  | some s => s != ""

/-- Deduplication under `Note.__eq__`, keeping the first representative of
each class, modelling how `set(self.notes) | set(other.notes)` collects its
elements. -/
def pyDedup : List Note → List Note → List Note
  | _, [] => []
  | seen, n :: ns =>
    if seen.any fun m => m.eqb n then pyDedup seen ns
    else n :: pyDedup (n :: seen) ns

/-- Insertion by `Note.__lt__`, for the `sorted` call of `Form.__add__`. -/
def insertNote (n : Note) : List Note → List Note
  | [] => [n]
  | m :: ms => if n.ltb m then n :: m :: ms else m :: insertNote n ms

/-- Insertion sort by `Note.__lt__`, modelling `sorted`. -/
def pySorted : List Note → List Note
  | [] => []
  | n :: ns => insertNote n (pySorted ns)

/-- Model of `Form.__add__`: the sorted deduplicated union of the note sets,
with the key kept when both operands agree, the scale kept only when both
scales agree, and the form labels concatenated when `self.scale` is truthy
(note: the reconciled `scale`, not `self.scale`, is what the result holds). -/
def Form.add (a b : Form) : Form :=
  let note_list := pySorted (pyDedup [] (a.notes ++ b.notes))
  if a.key = b.key then
    let scale := if a.scale = b.scale then a.scale else none
    let forms := if truthy a.scale then a.forms ++ b.forms else ""
    ⟨note_list, a.key, scale, forms⟩
  else ⟨note_list, none, none, ""⟩

/-- Model of `set(roots).issubset(set(notes_list))` under `Note.__eq__`. -/
def rootsCovered (roots nl : List Note) : Bool :=
  roots.all fun r => nl.any fun n => r.eqb n

/-- Model of `Form.calculate_form`.  The Python recursion carries no fuel; the
`fuel` argument only caps the modelled recursion depth, with `none` standing
for a recursion deeper than `fuel`.  The theorem for claim C9 shows a fuel of
24 is never exhausted, so the retry recursion always stops within the
fretboard bound. -/
def calculate_form (fuel : Nat) (key : String) (scale : Scale) (form : FormLetter)
    (form_start : Nat) (transpose : Bool) : Option (Except PyErr Form) :=
  match fuel with
  | 0 => none
  | fuel + 1 =>
    match attempt key scale form form_start with
    | .error e => some (.error e)
    | .ok rn =>
      if rootsCovered rn.1 rn.2 then
        some (Form.init rn.2 (some key) (some scale.name) form.str transpose)
      else calculate_form fuel key scale form (form_start + 1) transpose

/-- Sanity check: the modelled string tables agree with the faithful
`String.__init__` on the six strings `calculate_form` builds. -/
theorem mkString_strE1 : mkString 1 "E" = .ok strE1 := by decide

/-- Sanity check for the B string. -/
theorem mkString_strB2 : mkString 2 "B" = .ok strB2 := by decide

/-- Sanity check for the G string. -/
theorem mkString_strG3 : mkString 3 "G" = .ok strG3 := by decide

/-- Sanity check for the D string. -/
theorem mkString_strD4 : mkString 4 "D" = .ok strD4 := by decide

/-- Sanity check for the A string. -/
theorem mkString_strA5 : mkString 5 "A" = .ok strA5 := by decide

/-- Sanity check for the low E string. -/
theorem mkString_strE6 : mkString 6 "E" = .ok strE6 := by decide

@[simp] theorem bindExcept_ok {ε α β : Type} (a : α) (f : α → Except ε β) :
    (Except.ok a >>= f : Except ε β) = f a := rfl

@[simp] theorem bindExcept_error {ε α β : Type} (e : ε) (f : α → Except ε β) :
    (Except.error e >>= f : Except ε β) = .error e := rfl

/-- Successful construction forces the shape of the string: some valid open
pitch value `v` with the 23-entry note table `cfString` builds from it. -/
theorem mkString_ok_shape {i : Nat} {t : String} {gs : GString} (h : mkString i t = .ok gs) :
    ∃ v, noteToInt t = some v ∧ gs = cfString i v t := by
  unfold mkString at h
  cases hv : noteToInt t with
  | none => rw [hv] at h; exact Except.noConfusion h
  | some v =>
    rw [hv] at h
    exact ⟨v, rfl, (Except.ok.inj h).symm⟩

/-- Every note a constructed string carries sits at a fret below `FRETS`. -/
theorem cfString_fret_lt {i v : Nat} {t : String} {n : Note}
    (h : n ∈ (cfString i v t).notes) : n.fret < FRETS := by
  simp only [cfString, List.mem_map, List.mem_range] at h
  obtain ⟨f, hf, rfl⟩ := h
  exact hf

/-- Notes returned by the name lookup all come from the string's table. -/
theorem getByNameGo_subset :
    ∀ (item : String) (l res : List Note), getByNameGo item l = .ok res → ∀ n ∈ res, n ∈ l := by
  intro item l
  induction l with
  | nil =>
    intro res h n hn
    simp only [getByNameGo] at h
    cases h
    simp at hn
  | cons m ms ih =>
    intro res h n hn
    simp only [getByNameGo] at h
    cases hb : isEnharmonic m.name item with
    | error e => rw [hb] at h; exact Except.noConfusion h
    | ok b =>
      rw [hb] at h
      simp only [bindExcept_ok] at h
      cases hr : getByNameGo item ms with
      | error e => rw [hr] at h; exact Except.noConfusion h
      | ok rest =>
        rw [hr] at h
        simp only [bindExcept_ok] at h
        cases h
        by_cases hb2 : b = true
        · subst hb2; simp only [if_true] at hn
          rcases List.mem_cons.mp hn with h1 | h2
          · exact List.mem_cons.mpr (Or.inl h1)
          · exact List.mem_cons.mpr (Or.inr (ih rest hr n h2))
        · simp only [hb2] at hn
          simp only [if_false, Bool.false_eq_true] at hn
          exact List.mem_cons.mpr (Or.inr (ih rest hr n hn))

/-- With the floor fret at or beyond the fretboard, the root search of
`calculate_form` raises: a format error on an invalid key, otherwise the
`next(...)` call finds no root and raises `StopIteration`. -/
theorem computeRoots_fail (key : String) (form : FormLetter) (s : Nat) (hs : 23 ≤ s) :
    ∃ e, computeRoots key form s = .error e := by
  have main : ∀ (p : GString) (rest : List GString) (i v : Nat) (t : String), p = cfString i v t →
      ∃ e, (do
        let cand ← p.getitem_name key
        let r0 ← nextFretGE cand s
        let others ← computeRootsRest key r0.fret rest
        Except.ok (r0 :: others) : Except PyErr (List Note)) = .error e := by
    intro p rest i v t hp
    cases hc : p.getitem_name key with
    | error e => exact ⟨e, by simp [hc]⟩
    | ok cand =>
      have hfind : nextFretGE cand s = .error .stopIteration := by
        unfold nextFretGE
        rw [List.find?_eq_none.mpr]
        intro n hn
        have hlt : n.fret < FRETS := cfString_fret_lt (i := i) (v := v) (t := t)
          (by rw [← hp]; exact getByNameGo_subset key p.notes cand hc n hn)
        simp only [decide_eq_true_eq]
        unfold FRETS at hlt
        omega
      exact ⟨.stopIteration, by simp [hc, hfind]⟩
  cases form with
  | C => exact main strB2 [strA5] 2 11 "B" rfl
  | A => exact main strA5 [strG3] 5 9 "A" rfl
  | G => exact main strG3 [strE1, strE6] 3 7 "G" rfl
  | E => exact main strE1 [strE6, strD4] 1 4 "E" rfl
  | D => exact main strD4 [strB2] 4 2 "D" rfl

/-- A whole attempt at a floor at or beyond the fretboard fails, before the
scale provider is ever consulted. -/
theorem attempt_fail (key : String) (scale : Scale) (form : FormLetter) (s : Nat) (hs : 23 ≤ s) :
    ∃ e, attempt key scale form s = .error e := by
  obtain ⟨e, he⟩ := computeRoots_fail key form s hs
  exact ⟨e, by simp [attempt, he]⟩

/-- Extra fuel never changes an answer the modelled recursion already gives. -/
theorem calculate_form_mono :
    ∀ (fuel fuel' : Nat) (key : String) (scale : Scale) (form : FormLetter) (s : Nat)
      (t : Bool) (r : Except PyErr Form),
      calculate_form fuel key scale form s t = some r → fuel ≤ fuel' →
      calculate_form fuel' key scale form s t = some r := by
  intro fuel
  induction fuel with
  | zero =>
    intro fuel' key scale form s t r h _
    simp [calculate_form] at h
  | succ fuel ih =>
    intro fuel' key scale form s t r h hle
    match fuel' with
    | 0 => omega
    | f' + 1 =>
      simp only [calculate_form] at h ⊢
      cases hat : attempt key scale form s with
      | error e =>
        rw [hat] at h
        dsimp only at h ⊢
        exact h
      | ok rn =>
        rw [hat] at h
        dsimp only at h ⊢
        by_cases hc : rootsCovered rn.1 rn.2
        · simp only [hc, if_true] at h ⊢; exact h
        · simp only [hc, Bool.false_eq_true, if_false] at h ⊢
          exact ih f' key scale form (s + 1) t r h (by omega)

/-- The D-Locrian regression fixture of `test_d_locrian`: the notes of the
synthesized form, in the order the test expects them (string 6 to string 1,
ascending frets within a string). -/
def dLocrianNotes : List Note :=
  [⟨6, 6, "A#", none⟩, ⟨6, 8, "C", none⟩, ⟨6, 9, "C#", none⟩,
   ⟨5, 6, "D#", none⟩, ⟨5, 8, "F", none⟩,
   ⟨4, 5, "G", none⟩, ⟨4, 6, "G#", none⟩, ⟨4, 8, "A#", none⟩,
   ⟨3, 5, "C", none⟩, ⟨3, 6, "C#", none⟩, ⟨3, 8, "D#", none⟩,
   ⟨2, 6, "F", none⟩, ⟨2, 8, "G", none⟩, ⟨2, 9, "G#", none⟩,
   ⟨1, 6, "A#", none⟩, ⟨1, 8, "C", none⟩, ⟨1, 9, "C#", none⟩]

/-- C8: `calculate_form` with key "G", the Locrian scale, form letter "D" and
starting fret 0 returns exactly the fixture notes — frets 6, 8, 9 on strings
1, 2 and 6, frets 5, 6, 8 on strings 3 and 4, frets 6, 8 on string 5 — and
that sequence is sorted by the `Note` total order. -/
theorem c8_d_locrian :
    calculate_form 24 "G" Locrian .D 0 false
      = some (.ok ⟨dLocrianNotes, some "G", some "Locrian", "D"⟩)
    ∧ List.Pairwise (fun a b => a.ltb b = true) dLocrianNotes := by
  constructor
  · decide
  · decide

/-- C2 (code bug): with `transpose` set, `calculate_form` does not return the
octave-duplicated form the comment on line 170 promises: synthesis succeeds
on key "G", Locrian, form "D", but `Form.__init__` then calls `.extend` on
the tuple `Lick.__init__` stored, raising `AttributeError` — and it does so
for every notes list, key, scale and label. -/
theorem c2_transpose_fails :
    calculate_form 24 "G" Locrian .D 0 true = some (.error .attributeError)
    ∧ ∀ (nl : List Note) (k sc : Option String) (fs : String),
        Form.init nl k sc fs true = .error .attributeError :=
  ⟨by decide, fun _ _ _ _ => rfl⟩

/-- A scale provider with no representation of the key G's root: it always
answers the pitch-class list of a C-only "scale", the pathological input the
claim describes. -/
def rootlessScale : Scale := ⟨"RootlessC", fun _ => .ok ["C", "C"]⟩

/-- C3, counterexample: on the pathological rootless input the retry loop of
`calculate_form` ends in a `StopIteration` from the exhausted root search —
not in the `FormNotFound` error the claim names, which the source never
defines or raises. -/
theorem c3_counterexample :
    calculate_form 24 "G" rootlessScale .D 0 false = some (.error .stopIteration)
    ∧ PyErr.stopIteration ≠ PyErr.formNotFound := by
  constructor
  · decide
  · decide

/-- C3 as amended: on the rootless input the retry loop terminates — any fuel
at least 24 gives the same outcome, so the recursion is not unbounded — and
it surfaces a `StopIteration` error raised by the exhausted root-candidate
search, the only error the code produces there. -/
theorem c3_rootless_stop_iteration :
    ∀ fuel : Nat, 24 ≤ fuel →
      calculate_form fuel "G" rootlessScale .D 0 false = some (.error .stopIteration) := by
  intro fuel hfuel
  exact calculate_form_mono 24 fuel "G" rootlessScale .D 0 false _ (by decide) hfuel

/-- Witness for C3: the amended statement applied at fuel 30. -/
theorem c3_rootless_stop_iteration_witness :
    calculate_form 30 "G" rootlessScale .D 0 false = some (.error .stopIteration) :=
  c3_rootless_stop_iteration 30 (by omega)

/-- C1, counterexample: two forms with the same key but different scale
labels.  The sum keeps no scale label, yet its form label is the
concatenation "CA" rather than the empty string the claim requires, because
line 177 tests `self.scale` instead of the reconciled scale. -/
theorem c1_counterexample :
    (Form.add ⟨[], some "G", some "Ionian", "C"⟩ ⟨[], some "G", some "Locrian", "A"⟩).scale = none
    ∧ (Form.add ⟨[], some "G", some "Ionian", "C"⟩ ⟨[], some "G", some "Locrian", "A"⟩).forms = "CA" := by
  constructor
  · decide
  · decide

/-- C1 as amended: under `Form.__add__`, equal keys are kept and the scale
label is kept exactly when both agree; the form label, however, is the
concatenation of the two labels exactly when the LEFT operand's scale label
is truthy (present and non-empty) — not when the result retains a scale — and
is empty otherwise.  Distinct keys clear key, scale and label. -/
theorem c1_add_metadata :
    ∀ a b : Form,
      (a.key = b.key →
        (Form.add a b).key = a.key
        ∧ (Form.add a b).scale = (if a.scale = b.scale then a.scale else none)
        ∧ (Form.add a b).forms = (if truthy a.scale then a.forms ++ b.forms else ""))
      ∧ (a.key ≠ b.key →
        (Form.add a b).key = none ∧ (Form.add a b).scale = none ∧ (Form.add a b).forms = "") := by
  intro a b
  constructor
  · intro hk
    simp [Form.add, hk]
  · intro hk
    simp [Form.add, hk]

/-- Witness for C1: the amended statement applied to two concrete G-Locrian
forms, one per branch of the key comparison. -/
theorem c1_add_metadata_witness :
    (Form.add ⟨[], some "G", some "Locrian", "C"⟩ ⟨[], some "G", some "Locrian", "A"⟩).key = some "G"
    ∧ (Form.add ⟨[], some "G", some "Locrian", "C"⟩ ⟨[], some "G", some "Locrian", "A"⟩).forms = "CA"
    ∧ (Form.add ⟨[], some "G", some "Locrian", "C"⟩ ⟨[], some "A", some "Locrian", "A"⟩).key = none := by
  have h1 := (c1_add_metadata ⟨[], some "G", some "Locrian", "C"⟩ ⟨[], some "G", some "Locrian", "A"⟩).1 rfl
  have h2 := (c1_add_metadata ⟨[], some "G", some "Locrian", "C"⟩ ⟨[], some "A", some "Locrian", "A"⟩).2 (by decide)
  exact ⟨h1.1, h1.2.2.trans (by decide), h2.1⟩

/-- C7: applying `get_octave` twice returns to the starting note whenever the
original fret and both shifted frets stay on the fretboard; the round trip
preserves string, fret and name, hence is equal under `Note.__eq__`. -/
theorem c7_octave_involution :
    ∀ n : Note, n.fret ≤ 22 → n.get_octave.fret ≤ 22 → n.get_octave.get_octave.fret ≤ 22 →
      n.get_octave.get_octave.eqb n = true
      ∧ n.get_octave.get_octave.string = n.string
      ∧ n.get_octave.get_octave.fret = n.fret
      ∧ n.get_octave.get_octave.name = n.name := by
  intro n h0 h1 h2
  simp only [Note.get_octave] at h1 h2 ⊢
  have hfret : (if 12 ≤ (if 12 ≤ n.fret then n.fret - 12 else n.fret + 12) then
      (if 12 ≤ n.fret then n.fret - 12 else n.fret + 12) - 12
      else (if 12 ≤ n.fret then n.fret - 12 else n.fret + 12) + 12) = n.fret := by
    split_ifs <;> omega
  rw [hfret]
  simp [Note.eqb, Note.pyKey]

/-- Witness for C7: the round trip at string 3, fret 5, name "C". -/
theorem c7_octave_involution_witness :
    (Note.mk 3 5 "C" none).get_octave.get_octave.eqb (Note.mk 3 5 "C" none) = true :=
  (c7_octave_involution ⟨3, 5, "C", none⟩ (by decide) (by decide) (by decide)).1

/-- C10: a note at fret 11 is sent by `get_octave` to fret 23, one past the
top of the 23-fret table, where no note of any constructed string lives; and
`get_octave` checks no range at all — for every note it returns the same
string and name with the fret shifted down twelve from fret 12 up, and up
twelve otherwise. -/
theorem c10_octave_unchecked :
    ∀ (s : Nat) (nm : String) (e : Option String),
      (Note.mk s 11 nm e).get_octave.fret = 23
      ∧ ¬((Note.mk s 11 nm e).get_octave.fret < FRETS)
      ∧ (∀ (i : Nat) (t : String) (gs : GString), mkString i t = .ok gs →
          ∀ n ∈ gs.notes, n.fret ≠ (Note.mk s 11 nm e).get_octave.fret)
      ∧ (∀ m : Note, m.get_octave.string = m.string ∧ m.get_octave.name = m.name
          ∧ (12 ≤ m.fret → m.get_octave.fret = m.fret - 12)
          ∧ (m.fret < 12 → m.get_octave.fret = m.fret + 12)) := by
  intro s nm e
  have hoct : (Note.mk s 11 nm e).get_octave.fret = 23 := by simp [Note.get_octave]
  refine ⟨hoct, by simp [hoct, FRETS], ?_, ?_⟩
  · intro i t gs hgs n hn
    obtain ⟨v, _, rfl⟩ := mkString_ok_shape hgs
    have := cfString_fret_lt hn
    rw [hoct]
    unfold FRETS at this
    omega
  · intro m
    refine ⟨rfl, rfl, ?_, ?_⟩ <;> intro hm <;> simp [Note.get_octave, hm]

/-- Witness for C10: instantiated at string 1, name "C", no effect, with the
concrete high E string discharging the construction hypothesis. -/
theorem c10_octave_unchecked_witness :
    (Note.mk 1 11 "C" none).get_octave.fret = 23
    ∧ ∀ n ∈ strE1.notes, n.fret ≠ (Note.mk 1 11 "C" none).get_octave.fret := by
  have h := c10_octave_unchecked 1 "C" none
  exact ⟨h.1, fun n hn => h.2.2.1 1 "E" strE1 mkString_strE1 n hn⟩

/-- C4, counterexample: `Note(1, 23, 'C')` and `Note(12, 3, 'C')` share the
hash key string "123C", so `Note.__eq__` calls them equal although their
string and fret fields differ. -/
theorem c4_counterexample :
    (Note.mk 1 23 "C" none).eqb (Note.mk 12 3 "C" none) = true
    ∧ (Note.mk 1 23 "C" none).string ≠ (Note.mk 12 3 "C" none).string := by
  constructor
  · decide
  · decide

/-- C5, counterexample: `Note(11, 2, 'E')` and `Note(1, 12, 'E')` are equal
under `Note.__eq__` (both keys read "112E") yet strictly ordered by
`Note.__lt__`, so equality is not consistent with the order on all notes. -/
theorem c5_counterexample :
    (Note.mk 11 2 "E" none).eqb (Note.mk 1 12 "E" none) = true
    ∧ (Note.mk 11 2 "E" none).ltb (Note.mk 1 12 "E" none) = true := by
  constructor
  · decide
  · decide

/-- C6, counterexample: fret index -1 lies outside `[0, 22]`, yet the integer
lookup does not fail — Python tuple indexing wraps it to fret 22 and returns
that note's name. -/
theorem c6_counterexample : strE1.getitem_int (-1) = .ok "D" := by decide

/-- C9: the retry recursion of `calculate_form` is bounded by the fretboard:
whatever the key, scale provider, form letter, starting floor and transpose
flag, a modelled recursion budget of 24 — one attempt per possible floor fret
plus the failing one past the top — is never exhausted, because every attempt
with a floor at or beyond fret 23 errors out of the recursion. -/
theorem c9_terminates :
    ∀ (key : String) (scale : Scale) (form : FormLetter) (form_start : Nat) (transpose : Bool)
      (fuel : Nat), 24 ≤ fuel →
      (calculate_form fuel key scale form form_start transpose).isSome = true := by
  intro key scale form form_start transpose fuel hfuel
  have aux : ∀ (f s : Nat), 1 ≤ f → 24 ≤ f + s →
      (calculate_form f key scale form s transpose).isSome = true := by
    intro f
    induction f with
    | zero => intro s h1 _; omega
    | succ f ih =>
      intro s h1 h24
      simp only [calculate_form]
      cases hat : attempt key scale form s with
      | error e => simp
      | ok rn =>
        dsimp only
        by_cases hc : rootsCovered rn.1 rn.2
        · simp [hc]
        · simp only [hc, Bool.false_eq_true, if_false]
          have hs : s < 23 := by
            by_contra hcon
            push_neg at hcon
            obtain ⟨e, he⟩ := attempt_fail key scale form s hcon
            rw [he] at hat
            exact Except.noConfusion hat
          exact ih (s + 1) (by omega) (by omega)
  exact aux fuel form_start (by omega) (by omega)

/-- Witness for C9: the bound applied to the D-Locrian inputs at fuel 24. -/
theorem c9_terminates_witness :
    (calculate_form 24 "G" Locrian .D 0 false).isSome = true :=
  c9_terminates "G" Locrian .D 0 false 24 (by omega)

/-- Head of a character list is not a decimal digit (vacuously true of the
empty list); the condition under which a name cannot swallow fret digits. -/
def headNonDigit (l : List Char) : Bool :=
  match l with
  | [] => true
  | c :: _ => !c.isDigit

/-- The pitch-class name starts with a non-digit character, as every valid
mingus note name does. -/
def nameHeadNonDigit (s : String) : Bool := headNonDigit s.data

theorem digitChar_lt10_inj : ∀ m < 10, ∀ n < 10, Char.ofNat (48 + m) = Char.ofNat (48 + n) → m = n := by
  decide

theorem digitChar_isDigit : ∀ d < 10, (Char.ofNat (48 + d)).isDigit = true := by decide

/-- Every character `pyDigits` produces is a decimal digit. -/
theorem pyDigits_isDigit : ∀ n : Nat, ∀ c ∈ pyDigits n, c.isDigit = true := by
  intro n
  induction n using Nat.strong_induction_on with
  | _ n ih =>
    intro c hc
    rw [pyDigits_eq] at hc
    by_cases h : n < 10
    · rw [if_pos h] at hc
      simp only [List.mem_singleton] at hc
      subst hc
      exact digitChar_isDigit n h
    · rw [if_neg h] at hc
      rcases List.mem_append.mp hc with h1 | h2
      · exact ih (n / 10) (Nat.div_lt_self (by omega) (by omega)) c h1
      · simp only [List.mem_singleton] at h2
        subst h2
        exact digitChar_isDigit (n % 10) (Nat.mod_lt n (by omega))

theorem pyDigits_ne_nil : ∀ n : Nat, pyDigits n ≠ [] := by
  intro n
  rw [pyDigits_eq]
  by_cases h : n < 10
  · simp [h]
  · simp [h]

theorem pyDigits_lt10 {n : Nat} (h : n < 10) : pyDigits n = [Char.ofNat (48 + n)] := by
  rw [pyDigits_eq, if_pos h]

/-- Python decimal printing is injective on the naturals. -/
theorem pyDigits_inj : ∀ m n : Nat, pyDigits m = pyDigits n → m = n := by
  intro m
  induction m using Nat.strong_induction_on with
  | _ m ih =>
    intro n h
    by_cases hm : m < 10 <;> by_cases hn : n < 10
    · rw [pyDigits_lt10 hm, pyDigits_lt10 hn] at h
      injection h with h1 _
      exact digitChar_lt10_inj m hm n hn h1
    · exfalso
      rw [pyDigits_lt10 hm, pyDigits_eq n, if_neg hn] at h
      have hlen := congrArg List.length h
      simp only [List.length_singleton, List.length_append] at hlen
      exact pyDigits_ne_nil (n / 10) (List.length_eq_zero.mp (by omega))
    · exfalso
      rw [pyDigits_lt10 hn, pyDigits_eq m, if_neg hm] at h
      have hlen := congrArg List.length h
      simp only [List.length_singleton, List.length_append] at hlen
      exact pyDigits_ne_nil (m / 10) (List.length_eq_zero.mp (by omega))
    · rw [pyDigits_eq m, if_neg hm, pyDigits_eq n, if_neg hn] at h
      obtain ⟨h1, h2⟩ := List.append_inj' h (by simp)
      have hdiv := ih (m / 10) (Nat.div_lt_self (by omega) (by omega)) (n / 10) h1
      injection h2 with h3 _
      have hmod := digitChar_lt10_inj (m % 10) (Nat.mod_lt m (by omega)) (n % 10)
        (Nat.mod_lt n (by omega)) h3
      omega

/-- A run of digit characters followed by a non-digit-headed tail parses
uniquely: equal concatenations force equal runs and equal tails. -/
theorem digitRun_inj :
    ∀ d1 d2 r1 r2 : List Char,
      (∀ c ∈ d1, c.isDigit = true) → (∀ c ∈ d2, c.isDigit = true) →
      headNonDigit r1 = true → headNonDigit r2 = true →
      d1 ++ r1 = d2 ++ r2 → d1 = d2 ∧ r1 = r2 := by
  intro d1
  induction d1 with
  | nil =>
    intro d2 r1 r2 h1 h2 hr1 hr2 heq
    cases d2 with
    | nil => exact ⟨rfl, by simpa using heq⟩
    | cons c d2' =>
      exfalso
      simp only [List.nil_append, List.cons_append] at heq
      subst heq
      simp only [headNonDigit, Bool.not_eq_true'] at hr1
      exact absurd (h2 c (by simp)) (by simp [hr1])
  | cons c d1' ih =>
    intro d2 r1 r2 h1 h2 hr1 hr2 heq
    cases d2 with
    | nil =>
      exfalso
      simp only [List.nil_append, List.cons_append] at heq
      rw [← heq] at hr2
      simp only [headNonDigit, Bool.not_eq_true'] at hr2
      exact absurd (h1 c (by simp)) (by simp [hr2])
    | cons c2 d2' =>
      simp only [List.cons_append] at heq
      injection heq with hc htail
      subst hc
      obtain ⟨hd, hr⟩ := ih d2' r1 r2 (fun x hx => h1 x (by simp [hx]))
        (fun x hx => h2 x (by simp [hx])) hr1 hr2 htail
      exact ⟨by rw [hd], hr⟩

/-- On the domain the program uses — single-digit string indices and note
names not starting with a digit — the hash key determines the triple. -/
theorem pyKey_inj :
    ∀ a b : Note, a.string < 10 → b.string < 10 →
      nameHeadNonDigit a.name = true → nameHeadNonDigit b.name = true →
      a.pyKey = b.pyKey → a.string = b.string ∧ a.fret = b.fret ∧ a.name = b.name := by
  intro a b ha hb hna hnb h
  have hdata : pyDigits a.string ++ pyDigits a.fret ++ a.name.data
      = pyDigits b.string ++ pyDigits b.fret ++ b.name.data := congrArg String.data h
  rw [pyDigits_lt10 ha, pyDigits_lt10 hb] at hdata
  simp only [List.append_assoc, List.singleton_append] at hdata
  injection hdata with hc ht
  have hs := digitChar_lt10_inj _ ha _ hb hc
  obtain ⟨hd, hn⟩ := digitRun_inj (pyDigits a.fret) (pyDigits b.fret) a.name.data b.name.data
    (pyDigits_isDigit _) (pyDigits_isDigit _) hna hnb ht
  exact ⟨hs, pyDigits_inj _ _ hd, congrArg String.mk hn⟩

/-- C4 as amended: on notes with single-digit string indices and names not
starting with a digit — which covers every note the program constructs —
`Note.__eq__` holds exactly on equal `(string, fret, name)` triples, and the
performance effect never influences it.  (Outside that domain the key
concatenation is ambiguous; see the counterexample.) -/
theorem c4_eq_iff_triple :
    ∀ a b : Note, a.string < 10 → b.string < 10 →
      nameHeadNonDigit a.name = true → nameHeadNonDigit b.name = true →
      ((a.eqb b = true ↔ a.string = b.string ∧ a.fret = b.fret ∧ a.name = b.name)
        ∧ ∀ e1 e2 : Option String,
            Note.eqb ⟨a.string, a.fret, a.name, e1⟩ ⟨b.string, b.fret, b.name, e2⟩ = a.eqb b) := by
  intro a b ha hb hna hnb
  constructor
  · constructor
    · intro h
      have hk : a.pyKey = b.pyKey := by simpa [Note.eqb] using h
      exact pyKey_inj a b ha hb hna hnb hk
    · rintro ⟨h1, h2, h3⟩
      simp [Note.eqb, Note.pyKey, h1, h2, h3]
  · intro e1 e2
    rfl

/-- Witness for C4: two notes at string 3, fret 5, name "C#" differing only
in their effects are equal. -/
theorem c4_eq_iff_triple_witness :
    (Note.mk 3 5 "C#" none).eqb (Note.mk 3 5 "C#" (some "bend")) = true :=
  ((c4_eq_iff_triple ⟨3, 5, "C#", none⟩ ⟨3, 5, "C#", some "bend"⟩ (by decide) (by decide)
    (by decide) (by decide)).1).mpr ⟨rfl, rfl, rfl⟩

/-- C5 as amended: `Note.__eq__` is reflexive, symmetric and transitive on
all notes, and `Note.__lt__` is asymmetric on all notes; equality is
consistent with the strict order (equal notes never strictly ordered) on the
domain where the hash key is unambiguous — single-digit string indices and
non-digit-headed names — but not beyond it (see the counterexample). -/
theorem c5_eq_equivalence_order :
    (∀ a : Note, a.eqb a = true)
    ∧ (∀ a b : Note, a.eqb b = true → b.eqb a = true)
    ∧ (∀ a b c : Note, a.eqb b = true → b.eqb c = true → a.eqb c = true)
    ∧ (∀ a b : Note, ¬(a.ltb b = true ∧ b.ltb a = true))
    ∧ (∀ a b : Note, a.string < 10 → b.string < 10 →
        nameHeadNonDigit a.name = true → nameHeadNonDigit b.name = true →
        a.eqb b = true → a.ltb b = false) := by
  refine ⟨?_, ?_, ?_, ?_, ?_⟩
  · intro a; simp [Note.eqb]
  · intro a b h
    simp only [Note.eqb, decide_eq_true_eq] at h ⊢
    exact h.symm
  · intro a b c h1 h2
    simp only [Note.eqb, decide_eq_true_eq] at h1 h2 ⊢
    exact h1.trans h2
  · rintro a b ⟨h1, h2⟩
    simp only [Note.ltb, decide_eq_true_eq] at h1 h2
    omega
  · intro a b ha hb hna hnb h
    have hk : a.pyKey = b.pyKey := by simpa [Note.eqb] using h
    obtain ⟨h1, h2, _⟩ := pyKey_inj a b ha hb hna hnb hk
    simp [Note.ltb, h1, h2]

/-- Witness for C5: a note at string 2, fret 3, name "E" is not strictly
below itself. -/
theorem c5_eq_equivalence_order_witness :
    (Note.mk 2 3 "E" none).ltb (Note.mk 2 3 "E" none) = false :=
  c5_eq_equivalence_order.2.2.2.2 ⟨2, 3, "E", none⟩ ⟨2, 3, "E", none⟩ (by decide) (by decide)
    (by decide) (by decide) (by decide)

/-- Indexed access into a constructed note table. -/
theorem cfString_get? (i v : Nat) (t : String) (k : Nat) (hk : k < 23) :
    (cfString i v t).notes.get? k = some ⟨i, k, intToNote ((v + k) % 12), none⟩ := by
  simp [cfString, FRETS, List.get?_map, List.get?_range, hk]

/-- C6 as amended: integer lookup on a constructed string follows CPython
tuple indexing of the 23-entry note table — indices beyond 22 or below -23
raise `IndexError`; indices 0 through 22 succeed with the pitch-class name at
that fret; negative indices -23 through -1 also succeed, wrapping to fret
`item + 23`.  The lookup returns the note's name, not the note itself. -/
theorem c6_getitem_int :
    ∀ (i : Nat) (t : String) (v : Nat) (gs : GString),
      noteToInt t = some v → mkString i t = .ok gs →
      ∀ item : Int,
        ((item < -23 ∨ 23 ≤ item) → gs.getitem_int item = .error .indexError)
        ∧ (0 ≤ item → item < 23 → gs.getitem_int item = .ok (intToNote ((v + item.toNat) % 12)))
        ∧ (-23 ≤ item → item < 0 →
            gs.getitem_int item = .ok (intToNote ((v + (item + 23).toNat) % 12))) := by
  intro i t v gs hv hgs item
  obtain ⟨v', hv', rfl⟩ := mkString_ok_shape hgs
  rw [hv] at hv'
  injection hv' with hvv
  subst hvv
  have hlen : (((cfString i v t).notes.length : Nat) : Int) = 23 := by
    simp [cfString, FRETS]
  refine ⟨?_, ?_, ?_⟩
  · intro hout
    simp only [GString.getitem_int, hlen]
    rw [if_neg]
    split_ifs <;> omega
  · intro h0 h23
    simp only [GString.getitem_int, hlen]
    rw [if_neg (show ¬item < 0 by omega), if_pos (by omega : (0 : Int) ≤ item ∧ item < 23)]
    rw [cfString_get? i v t item.toNat (by omega)]
  · intro hm23 h0
    simp only [GString.getitem_int, hlen]
    rw [if_pos (show item < 0 by omega),
      if_pos (by omega : (0 : Int) ≤ item + 23 ∧ item + 23 < 23)]
    rw [cfString_get? i v t (item + 23).toNat (by omega)]

/-- Witness for C6: on the high E string, index 25 raises, index 3 answers
"G", index -23 wraps to the open string and answers "E". -/
theorem c6_getitem_int_witness :
    strE1.getitem_int 25 = .error .indexError
    ∧ strE1.getitem_int 3 = .ok "G"
    ∧ strE1.getitem_int (-23) = .ok "E" := by
  have h := c6_getitem_int 1 "E" 4 strE1 (by decide) mkString_strE1
  refine ⟨(h 25).1 (by omega), ?_, ?_⟩
  · exact ((h 3).2.1 (by omega) (by omega)).trans (by decide)
  · exact ((h (-23)).2.2 (by omega) (by omega)).trans (by decide)

end Caged
